import Mathlib

/-!
Verification of the emoji lookup-and-search library (`EmojiData` class in
`src/lib/data-source/index.ts`).

The embedding models JavaScript strings as lists of Unicode code points
(`List Char`), JavaScript numbers as `Nat` where the code only ever holds
integer values and as `Rat` where the code performs division
(the sprite-sheet coordinate math), and the ES `Map`s built by
`initEmojiMap` as fold-based lookup functions with last-writer-wins
semantics.  The raw dataset `emoji.json` is an external resource of the
repository; functions are therefore parameterised by the record list, and a
small concrete dataset is modelled from the spec and the repository tests
where a claim speaks about concrete dataset records.
-/

/-- One skin-tone variation of a base emoji (interface `SkinVariationData`).
Only the fields the library code reads are modelled; the provider
availability flags, `added_in` and `non_qualified` are never consulted by
any function under verification and are omitted. -/
structure SkinVariationData where
  unified : String
  image : String
  sheet_x : Nat
  sheet_y : Nat
deriving DecidableEq, Repr

/-- One emoji record (interface `IEmoji`).  `skin_variations` is a JSON
object with unique keys, modelled as an association list looked up by first
match.  The optional `obsoleted_by` and `obsoletes` fields are never read
by the code and are omitted. -/
structure IEmoji where
  name : String
  unified : String
  image : String
  sheet_x : Nat
  sheet_y : Nat
  short_name : String
  short_names : List String
  category : String
  subcategory : String
  char : String
  skin_variations : Option (List (String × SkinVariationData))
deriving DecidableEq, Repr

/-- Computed image descriptor (interface `EmojiImage`).  The coordinates
are produced by division and are modelled as rationals. -/
structure EmojiImage where
  x : Rat
  y : Rat
  sheetSizeX : Rat
  sheetSizeY : Rat
  image : String
deriving DecidableEq, Repr

/-- Result of `getSkinInfo` (interface `EmoijSkinImageData`).  In the
skin-tone branch the code stores computed (divided) coordinates in
`sheet_x`/`sheet_y`, so they are rationals here. -/
structure EmoijSkinImageData where
  sheet_x : Rat
  sheet_y : Rat
  unified : String
  short_name : String
  image : String
deriving DecidableEq, Repr

/-- `export const sheetColumns = 61`. -/
def sheetColumns : Nat := 61

/-- `export const sheetRows = 61`. -/
def sheetRows : Nat := 61

/-- First index at which `sub` occurs in `l`, scanning left to right; the
embedding of `String.prototype.indexOf` restricted to a found/not-found
`Option` (the TypeScript code only compares the result with `-1` or uses
the found index). -/
def firstOccur (l sub : List Char) : Option Nat :=
  if sub.isPrefixOf l then some 0
  else
    match l with
    | [] => none
    | _ :: t => (firstOccur t sub).map Nat.succ

/-- `s.indexOf(sub)` as an `Option Nat`. -/
def strIndexOf (s sub : String) : Option Nat :=
  firstOccur s.data sub.data

/-- `s.toLowerCase()`; character-wise lowering, which agrees with the
JavaScript behaviour on the ASCII short names and queries the library
works with. -/
def lowerStr (s : String) : String :=
  String.mk (s.data.map Char.toLower)

/-- `emojiStrWithColon.replace(/^(:+)|(:+)$/g, '')`: the regular
expression removes one maximal run of leading colons and one maximal run
of trailing colons. -/
def trimColons (s : String) : String :=
  String.mk (((s.data.dropWhile (fun c => c = ':')).reverse.dropWhile
    (fun c => c = ':')).reverse)

/-- Insert `x` into `l`, passing over every element `y` with `lt y x`;
together with `insSort` this is a stable insertion sort, the order any
ECMAScript 2019+ `Array.prototype.sort` with a consistent numeric
comparator is specified to produce. -/
def insIns (lt : α → α → Bool) (x : α) : List α → List α
  | [] => [x]
  | y :: ys => if lt y x then y :: insIns lt x ys else x :: y :: ys

/-- Stable sort with respect to the strict comparison `lt`; the embedding
of `Array.prototype.sort` with comparator `(a, b) => key a - key b`
(where `lt a b` means the comparator is negative). -/
def insSort (lt : α → α → Bool) (l : List α) : List α :=
  l.foldr (insIns lt) []

/-- Last-writer-wins name index built by `initEmojiMap`: for every record
and every alias in its `short_names`, `emojiValMap.set(name, emoji)`;
a lookup returns the last record in dataset order carrying the alias. -/
def emojiValMap (emojis : List IEmoji) (name : String) : Option IEmoji :=
  emojis.foldl (fun acc e => if e.short_names.contains name then some e else acc) none

/-- Character index built by `initEmojiMap`:
`emojiUnifiedValMap.set(eachEmoji.char, eachEmoji)`, last writer wins. -/
def emojiUnifiedValMap (emojis : List IEmoji) (c : String) : Option IEmoji :=
  emojis.foldl (fun acc e => if e.char = c then some e else acc) none

/-- Property lookup `skinVariations[key]` on the JSON object modelled as
an association list (keys are unique in the dataset). -/
def lookupSV (svs : List (String × SkinVariationData)) (key : String) :
    Option SkinVariationData :=
  (svs.find? (fun p => p.1 == key)).map (fun p => p.2)

/-- `findImage(actual, variation?)`: sprite-sheet coordinate computation.
The JavaScript `||` between the two `skin_variations` lookups is modelled
by trying the second key only when the first lookup misses (object values
are truthy, `undefined` is falsy). -/
def findImage (actual : IEmoji) (variation : Option IEmoji) : EmojiImage :=
  let sheetSizeX : Rat := 100 * sheetColumns
  let sheetSizeY : Rat := 100 * sheetRows
  let multiplyX : Rat := 100 / ((sheetColumns : Rat) - 1)
  let multiplyY : Rat := 100 / ((sheetRows : Rat) - 1)
  match actual.skin_variations, variation with
  | some svs, some v =>
    let foundEmoji :=
      match lookupSV svs v.unified with
      | some f => some f
      | none => lookupSV svs (v.unified ++ "-" ++ v.unified)
    { x := match foundEmoji with
        | some f => (f.sheet_x : Rat) * multiplyX
        | none => 0
      y := match foundEmoji with
        | some f => (f.sheet_y : Rat) * multiplyY
        | none => 0
      sheetSizeX := sheetSizeX
      sheetSizeY := sheetSizeY
      image := match foundEmoji with
        | some f => f.image
        | none => "" }
  | _, _ =>
    { x := (actual.sheet_x : Rat) * multiplyX
      y := (actual.sheet_y : Rat) * multiplyY
      sheetSizeX := sheetSizeX
      sheetSizeY := sheetSizeY
      image := actual.image }

/-- `hasSkinTone(skinTone)`: true iff the string contains the literal
substring `skin-tone-` (the `!= null` guard is vacuous for a `String`). -/
def hasSkinTone (skinTone : String) : Bool :=
  (strIndexOf skinTone "skin-tone-").isSome

/-- The capture `match = emojiStr.match(/skin-tone-(\d+)/)` followed by
`match ? match[1] : null`: the first position where `skin-tone-` is
followed by at least one decimal digit yields the maximal digit run;
positions where no digit follows are skipped, exactly as the backtracking
regular-expression search does. -/
def findSkinToneMatch : List Char → Option (List Char)
  | [] => none
  | c :: rest =>
    let l := c :: rest
    let ds := (l.drop 10).takeWhile Char.isDigit
    if "skin-tone-".data.isPrefixOf l && !ds.isEmpty then some ds
    else findSkinToneMatch rest

/-- The captured digit group of `/skin-tone-(\d+)/` as a string. -/
def skinToneDigits (s : String) : Option String :=
  (findSkinToneMatch s.data).map String.mk

/-- `getImageData(emojiStr)`.  In the compound branch, the JavaScript
template literal renders a `null` capture as the string `null`, so a
failed digit match looks up the key `skin-tone-null`. -/
def getImageData (emojis : List IEmoji) (emojiStr : String) : Option EmojiImage :=
  let s := lowerStr emojiStr
  if strIndexOf s "::skin-tone-" = none then
    match emojiValMap emojis s with
    | some emojiVal =>
      if emojiVal.category ≠ "Skin Tones" then some (findImage emojiVal none) else none
    | none => none
  else
    let skinTone := skinToneDigits s
    let skinVal := emojiValMap emojis
      ("skin-tone-" ++ (match skinTone with | some t => t | none => "null"))
    let emojiIdx := String.mk (s.data.take (s.data.length - 13))
    match emojiValMap emojis emojiIdx with
    | some emojiVal => some (findImage emojiVal skinVal)
    | none => none

/-- `getImageDataWithColon(emojiStrWithColon)`. -/
def getImageDataWithColon (emojis : List IEmoji) (emojiStrWithColon : String) :
    Option EmojiImage :=
  getImageData emojis (trimColons emojiStrWithColon)

/-- One hit of the `searchEmoji` scan: the record together with the index
at which the query occurs in its `short_name` (the pushed object
`{ index, emoji }`). -/
structure SearchHit where
  index : Nat
  emoji : IEmoji
deriving DecidableEq, Repr

/-- The collection loop of `searchEmoji`: records whose `short_name`
contains the query (`indexOf > -1`) and is not itself a skin-tone name,
in dataset order, with the match index. -/
def searchHits (emojis : List IEmoji) (emojiStr : String) : List SearchHit :=
  emojis.filterMap (fun emoji =>
    match strIndexOf emoji.short_name emojiStr with
    | some index =>
      if hasSkinTone emoji.short_name then none else some ⟨index, emoji⟩
    | none => none)

/-- `arr.slice(0, limit)`: a non-negative end index truncates, a negative
end index counts from the end of the array (clamped at zero). -/
def jsSlice (l : List α) (limit : Int) : List α :=
  if 0 ≤ limit then l.take limit.toNat
  else l.take (l.length - (-limit).toNat)

/-- `searchEmoji(emojiStr, limit)`: collect hits, stable-sort by
`short_name` length, stable-sort by match index, project the records and
apply `slice(0, limit)`. -/
def searchEmoji (emojis : List IEmoji) (emojiStr : String) (limit : Int) :
    List IEmoji :=
  let result := searchHits emojis emojiStr
  jsSlice
    ((insSort (fun a b => decide (a.index < b.index))
      (insSort
        (fun a b => decide (a.emoji.short_name.length < b.emoji.short_name.length))
        result)).map (fun a => a.emoji))
    limit

/-- `getSkinInfo(emoji, skinTone?)`. -/
def getSkinInfo (emojis : List IEmoji) (emoji : IEmoji)
    (skinTone : Option String) : EmoijSkinImageData :=
  match skinTone with
  | some st =>
    if hasSkinTone st then
      let skinEmoji := emojiValMap emojis st
      let pos := findImage emoji skinEmoji
      { sheet_x := pos.x
        sheet_y := pos.y
        unified := emoji.unified
        short_name := st
        image := pos.image }
    else
      { sheet_x := (emoji.sheet_x : Rat)
        sheet_y := (emoji.sheet_y : Rat)
        unified := emoji.unified
        short_name := emoji.short_name
        image := emoji.image }
  | none =>
    { sheet_x := (emoji.sheet_x : Rat)
      sheet_y := (emoji.sheet_y : Rat)
      unified := emoji.unified
      short_name := emoji.short_name
      image := emoji.image }

/-- `convertUniToStr(emojiUni, withoutSkinToneUni)`: look the base match
up in the character index; on a hit emit the colon-wrapped short name, on
a miss return the original matched text. -/
def convertUniToStr (emojis : List IEmoji) (emojiUni withoutSkinToneUni : String) :
    String :=
  match emojiUnifiedValMap emojis withoutSkinToneUni with
  | some emoji => ":" ++ emoji.short_name ++ ":"
  | none => emojiUni

/-- The alternation list built by `initUnified()`: every record character,
sorted by length descending (stable).  The `*` escaping in the source is
an artifact of the pattern language that leaves the matched literal text
unchanged and therefore has no counterpart in the embedding. -/
def initUnified (emojis : List IEmoji) : List String :=
  insSort (fun a b => decide (b.length < a.length))
    (emojis.map (fun e => e.char))

/-- The character class `[\u{DFFB}-\u{DFFF}]` of the generated matcher:
with the `u` flag it matches exactly the code points U+DFFB through
U+DFFF.  No Unicode scalar value lies in that surrogate range, which is
why this predicate is provably never satisfied by a code point of a
well-formed string. -/
def isToneCapture (c : Char) : Bool :=
  0xDFFB ≤ c.toNat && c.toNat ≤ 0xDFFF

/-- First alternative of the generated alternation matching at the head of
`l`.  The alternatives are tried in pattern order (length descending).
Empty alternatives are skipped to keep the scan productive; the dataset
never contains a record with an empty `char`. -/
def findAlt (alts : List String) (l : List Char) : Option String :=
  alts.find? (fun a => !a.data.isEmpty && a.data.isPrefixOf l)

/-- The global-replace scan of `text.replace(this.emojiUnicodeRegex, cb)`:
at every position try the alternation; on a match optionally consume one
trailing code point of the `[\u{DFFB}-\u{DFFF}]` class and substitute the
callback result, then continue after the match; otherwise copy one
character.  Every step consumes at least one character, so `fuel` equal to
the length of the text makes the recursion total without changing the
result. -/
def replaceScan (emojis : List IEmoji) (alts : List String) :
    Nat → List Char → List Char
  | _, [] => []
  | 0, l => l
  | fuel + 1, c :: rest =>
    match findAlt alts (c :: rest) with
    | none => c :: replaceScan emojis alts fuel rest
    | some a =>
      match (c :: rest).drop a.data.length with
      | [] => (convertUniToStr emojis a a).data
      | m :: r =>
        if isToneCapture m then
          (convertUniToStr emojis (a.push m) a).data ++ replaceScan emojis alts fuel r
        else
          (convertUniToStr emojis a a).data ++
            replaceScan emojis alts fuel (m :: r)

/-- `replaceEmojiToStr(text)`. -/
def replaceEmojiToStr (emojis : List IEmoji) (text : String) : String :=
  String.mk (replaceScan emojis (initUnified emojis) text.data.length text.data)

/-- Modelled from the spec: the raw dataset `emoji.json` is an external
resource of the repository (not under `src/`).  The record for the short
name `smile` is reconstructed from the spec examples and the repository
test expectations (image `1f604.png`, sheet cell `(32, 50)`, unified
`1F604`, no skin variations). -/
def smileRec : IEmoji :=
  { name := "SMILING FACE WITH OPEN MOUTH AND SMILING EYES"
    unified := "1F604"
    image := "1f604.png"
    sheet_x := 32
    sheet_y := 50
    short_name := "smile"
    short_names := ["smile"]
    category := "Smileys & Emotion"
    subcategory := "face-smiling"
    char := String.mk [Char.ofNat 0x1F604]
    skin_variations := none }

/-- Modelled from the spec: the `skin-tone-2` modifier record (unified
`1F3FB`, category `Skin Tones`, character U+1F3FB). -/
def skinTone2Rec : IEmoji :=
  { name := "EMOJI MODIFIER FITZPATRICK TYPE-1-2"
    unified := "1F3FB"
    image := "1f3fb.png"
    sheet_x := 12
    sheet_y := 25
    short_name := "skin-tone-2"
    short_names := ["skin-tone-2"]
    category := "Skin Tones"
    subcategory := "skin-tone"
    char := String.mk [Char.ofNat 0x1F3FB]
    skin_variations := none }

/-- Modelled from the spec: the `skin-tone-4` modifier record (unified
`1F3FD`, category `Skin Tones`, character U+1F3FD). -/
def skinTone4Rec : IEmoji :=
  { name := "EMOJI MODIFIER FITZPATRICK TYPE-4"
    unified := "1F3FD"
    image := "1f3fd.png"
    sheet_x := 12
    sheet_y := 27
    short_name := "skin-tone-4"
    short_names := ["skin-tone-4"]
    category := "Skin Tones"
    subcategory := "skin-tone"
    char := String.mk [Char.ofNat 0x1F3FD]
    skin_variations := none }

/-- Modelled from the spec: the `wave` record (unified `1F44B`, character
U+1F44B) with its type-1-2 skin variation, as exercised by the repository
test `replaceEmojiToStr returns emoji short name with skintone-2`. -/
def waveRec : IEmoji :=
  { name := "WAVING HAND SIGN"
    unified := "1F44B"
    image := "1f44b.png"
    sheet_x := 13
    sheet_y := 28
    short_name := "wave"
    short_names := ["wave"]
    category := "People & Body"
    subcategory := "hand-fingers-open"
    char := String.mk [Char.ofNat 0x1F44B]
    skin_variations := some
      [("1F3FB",
        { unified := "1F44B-1F3FB"
          image := "1f44b-1f3fb.png"
          sheet_x := 13
          sheet_y := 29 })] }

/-- Modelled from the spec: the `spock-hand` record (unified `1F596`,
character U+1F596) with its type-1-2 and type-4 skin variations; the
type-4 variation image `1f596-1f3fd.png` is the value the spec and the
repository test expect from `getImageData("spock-hand::skin-tone-4")`. -/
def spockHandRec : IEmoji :=
  { name := "RAISED HAND WITH PART BETWEEN MIDDLE AND RING FINGERS"
    unified := "1F596"
    image := "1f596.png"
    sheet_x := 41
    sheet_y := 20
    short_name := "spock-hand"
    short_names := ["spock-hand"]
    category := "People & Body"
    subcategory := "hand-fingers-open"
    char := String.mk [Char.ofNat 0x1F596]
    skin_variations := some
      [("1F3FB",
        { unified := "1F596-1F3FB"
          image := "1f596-1f3fb.png"
          sheet_x := 41
          sheet_y := 21 }),
       ("1F3FD",
        { unified := "1F596-1F3FD"
          image := "1f596-1f3fd.png"
          sheet_x := 41
          sheet_y := 23 })] }

/-- Modelled from the spec: a small concrete dataset standing in for the
external `emoji.json`, holding exactly the records the concrete spec
examples refer to. -/
def modelEmojis : List IEmoji :=
  [smileRec, waveRec, spockHandRec, skinTone2Rec, skinTone4Rec]

theorem insIns_perm (lt : α → α → Bool) (x : α) (s : List α) :
    (insIns lt x s).Perm (x :: s) := by
  induction s with
  | nil => simp [insIns]
  | cons y ys ih =>
    by_cases h : lt y x = true
    · simpa [insIns, h] using ((ih.cons y).trans (List.Perm.swap x y ys))
    · simp [insIns, h]

theorem insSort_perm (lt : α → α → Bool) (l : List α) :
    (insSort lt l).Perm l := by
  induction l with
  | nil => simp [insSort]
  | cons x xs ih =>
    exact (insIns_perm lt x (insSort lt xs)).trans (ih.cons x)

theorem mem_insIns (lt : α → α → Bool) (x z : α) (s : List α) :
    z ∈ insIns lt x s ↔ z = x ∨ z ∈ s := by
  have h := (insIns_perm lt x s).mem_iff (a := z)
  simpa using h

theorem insIns_pairwise (lt : α → α → Bool) (R : α → α → Prop)
    (htrans : ∀ a b c, lt a b = true → lt b c = true → lt a c = true)
    (hneg : ∀ a b c, lt a b = false → lt b c = false → lt a c = false)
    (x : α) (s : List α)
    (hs : s.Pairwise (fun a b =>
      lt a b = true ∨ (lt a b = false ∧ lt b a = false ∧ R a b)))
    (hx : ∀ y ∈ s, R x y) :
    (insIns lt x s).Pairwise (fun a b =>
      lt a b = true ∨ (lt a b = false ∧ lt b a = false ∧ R a b)) := by
  induction s with
  | nil => simp [insIns]
  | cons y ys ih =>
    rcases List.pairwise_cons.mp hs with ⟨hy, hys⟩
    by_cases h : lt y x = true
    · have htail := ih hys (fun z hz => hx z (List.mem_cons_of_mem y hz))
      rw [show insIns lt x (y :: ys) = y :: insIns lt x ys by simp [insIns, h]]
      refine List.pairwise_cons.mpr ⟨?_, htail⟩
      intro z hz
      rcases (mem_insIns lt x z ys).mp hz with rfl | hz
      · exact Or.inl h
      · exact hy z hz
    · have hxy : lt y x = false := by simpa using h
      rw [show insIns lt x (y :: ys) = x :: y :: ys by simp [insIns, hxy]]
      refine List.pairwise_cons.mpr ⟨?_, hs⟩
      intro z hz
      rcases List.mem_cons.mp hz with rfl | hz
      · by_cases hxz : lt x z = true
        · exact Or.inl hxz
        · exact Or.inr ⟨by simpa using hxz, hxy, hx z (List.mem_cons_self z ys)⟩
      · have hRxz : R x z := hx z (List.mem_cons_of_mem y hz)
        have hyz := hy z hz
        by_cases hxz : lt x z = true
        · exact Or.inl hxz
        · have hxz' : lt x z = false := by simpa using hxz
          rcases hyz with hyz | ⟨hyz1, hzy, _⟩
          · by_cases hzx : lt z x = true
            · exact absurd (htrans y z x hyz hzx) (by simp [hxy])
            · exact Or.inr ⟨hxz', by simpa using hzx, hRxz⟩
          · exact Or.inr ⟨hxz', hneg z y x hzy hxy, hRxz⟩

theorem insSort_pairwise (lt : α → α → Bool) (R : α → α → Prop)
    (htrans : ∀ a b c, lt a b = true → lt b c = true → lt a c = true)
    (hneg : ∀ a b c, lt a b = false → lt b c = false → lt a c = false)
    (l : List α) (hl : l.Pairwise R) :
    (insSort lt l).Pairwise (fun a b =>
      lt a b = true ∨ (lt a b = false ∧ lt b a = false ∧ R a b)) := by
  induction l with
  | nil => simp [insSort]
  | cons x xs ih =>
    rcases List.pairwise_cons.mp hl with ⟨hx, hxs⟩
    have hsorted := ih hxs
    have hmem : ∀ y ∈ insSort lt xs, R x y := by
      intro y hy
      exact hx y ((insSort_perm lt xs).mem_iff.mp hy)
    exact insIns_pairwise lt R htrans hneg x (insSort lt xs) hsorted hmem

theorem pairwise_true (l : List α) : l.Pairwise (fun _ _ => True) := by
  induction l with
  | nil => exact List.Pairwise.nil
  | cons x xs ih => exact List.pairwise_cons.mpr ⟨fun _ _ => trivial, ih⟩

theorem searchHits_map_emoji (emojis : List IEmoji) (s : String) :
    (searchHits emojis s).map (fun h => h.emoji) =
      emojis.filter (fun e =>
        (strIndexOf e.short_name s).isSome && !(hasSkinTone e.short_name)) := by
  induction emojis with
  | nil => rfl
  | cons e rest ih =>
    simp only [searchHits, List.filterMap_cons, List.filter_cons] at *
    cases hidx : strIndexOf e.short_name s with
    | none => simpa [hidx] using ih
    | some i =>
      by_cases hskin : hasSkinTone e.short_name
      · simpa [hidx, hskin] using ih
      · simpa [hidx, hskin] using ih

theorem searchHits_idx (emojis : List IEmoji) (s : String) :
    ∀ h ∈ searchHits emojis s, strIndexOf h.emoji.short_name s = some h.index := by
  intro h hh
  simp only [searchHits, List.mem_filterMap] at hh
  obtain ⟨e, he, hfe⟩ := hh
  cases hidx : strIndexOf e.short_name s with
  | none => simp [hidx] at hfe
  | some i =>
    by_cases hskin : hasSkinTone e.short_name
    · simp [hidx, hskin] at hfe
    · simp [hidx, hskin] at hfe
      subst hfe
      simpa using hidx

/-- The untruncated search pipeline: there is a single list `full` such
that `searchEmoji` is `slice(0, limit)` of it for every limit, `full` is a
permutation of the records whose `short_name` contains the query and is
not a skin-tone name, and `full` is ordered by match index ascending with
ties broken by `short_name` length ascending. -/
theorem searchEmoji_sortedFull (emojis : List IEmoji) (s : String) :
    ∃ full : List IEmoji,
      (∀ lim : Int, searchEmoji emojis s lim = jsSlice full lim) ∧
      full.Perm (emojis.filter (fun e =>
        (strIndexOf e.short_name s).isSome && !(hasSkinTone e.short_name))) ∧
      full.Pairwise (fun a b =>
        (strIndexOf a.short_name s).getD 0 < (strIndexOf b.short_name s).getD 0 ∨
        ((strIndexOf a.short_name s).getD 0 = (strIndexOf b.short_name s).getD 0 ∧
          a.short_name.length ≤ b.short_name.length)) := by
  classical
  set ltLen : SearchHit → SearchHit → Bool :=
    fun a b => decide (a.emoji.short_name.length < b.emoji.short_name.length) with hltLen
  set ltIdx : SearchHit → SearchHit → Bool :=
    fun a b => decide (a.index < b.index) with hltIdx
  set hits := searchHits emojis s with hhits
  set s1 := insSort ltLen hits with hs1
  set s2 := insSort ltIdx s1 with hs2
  refine ⟨List.map (fun h => h.emoji) s2, ?_, ?_, ?_⟩
  · intro lim
    rfl
  · have hperm : s2.Perm hits :=
      (insSort_perm ltIdx s1).trans (insSort_perm ltLen hits)
    have := hperm.map (fun h => h.emoji)
    rw [searchHits_map_emoji] at this
    exact this
  · have h1 : s1.Pairwise (fun a b =>
        a.emoji.short_name.length ≤ b.emoji.short_name.length) := by
      have := insSort_pairwise ltLen (fun _ _ => True)
        (by intro a b c h1 h2; simp only [hltLen, decide_eq_true_eq] at *; omega)
        (by intro a b c h1 h2; simp only [hltLen, decide_eq_false_iff_not] at *; omega)
        hits (pairwise_true hits)
      refine this.imp ?_
      intro a b hab
      rcases hab with hab | ⟨hab, hba, _⟩
      · simp only [hltLen, decide_eq_true_eq] at hab
        omega
      · simp only [hltLen, decide_eq_false_iff_not] at hab hba
        omega
    have h2 : s2.Pairwise (fun a b =>
        a.index < b.index ∨
        (a.index = b.index ∧ a.emoji.short_name.length ≤ b.emoji.short_name.length)) := by
      have := insSort_pairwise ltIdx
        (fun a b => a.emoji.short_name.length ≤ b.emoji.short_name.length)
        (by intro a b c h1 h2; simp only [hltIdx, decide_eq_true_eq] at *; omega)
        (by intro a b c h1 h2; simp only [hltIdx, decide_eq_false_iff_not] at *; omega)
        s1 h1
      refine this.imp ?_
      intro a b hab
      rcases hab with hab | ⟨hab, hba, hR⟩
      · simp only [hltIdx, decide_eq_true_eq] at hab
        exact Or.inl hab
      · simp only [hltIdx, decide_eq_false_iff_not] at hab hba
        exact Or.inr ⟨by omega, hR⟩
    have hmem : ∀ h ∈ s2, strIndexOf h.emoji.short_name s = some h.index := by
      intro h hh
      refine searchHits_idx emojis s h ?_
      have hperm : s2.Perm hits :=
        (insSort_perm ltIdx s1).trans (insSort_perm ltLen hits)
      exact hperm.mem_iff.mp hh
    rw [List.pairwise_map]
    refine h2.imp_of_mem ?_
    intro a b ha hb hab
    rw [show (strIndexOf a.emoji.short_name s).getD 0 = a.index by
        rw [hmem a ha]; rfl,
      show (strIndexOf b.emoji.short_name s).getD 0 = b.index by
        rw [hmem b hb]; rfl]
    exact hab

/-- C1: for every query string and non-negative limit, `searchEmoji`
returns exactly the records whose `short_name` contains the query as a
case-sensitive substring and is not a skin-tone name, ordered primarily by
ascending index of the first occurrence and secondarily by ascending
`short_name` length, truncated to at most `limit` results.  The result is
a pure function of the dataset and the arguments, hence deterministic. -/
theorem searchEmoji_correct (emojis : List IEmoji) (s : String) (limit : Nat) :
    ∃ full : List IEmoji,
      searchEmoji emojis s (limit : Int) = full.take limit ∧
      (searchEmoji emojis s (limit : Int)).length ≤ limit ∧
      full.Perm (emojis.filter (fun e =>
        (strIndexOf e.short_name s).isSome && !(hasSkinTone e.short_name))) ∧
      full.Pairwise (fun a b =>
        (strIndexOf a.short_name s).getD 0 < (strIndexOf b.short_name s).getD 0 ∨
        ((strIndexOf a.short_name s).getD 0 = (strIndexOf b.short_name s).getD 0 ∧
          a.short_name.length ≤ b.short_name.length)) := by
  obtain ⟨full, hslice, hperm, hpair⟩ := searchEmoji_sortedFull emojis s
  have htake : searchEmoji emojis s (limit : Int) = full.take limit := by
    rw [hslice]
    simp [jsSlice]
  refine ⟨full, htake, ?_, hperm, hpair⟩
  rw [htake]
  exact List.length_take_le limit full

/-- C10: for every query string and strictly negative limit `-k`,
`searchEmoji` returns all matching records except the last `k` of them in
the sorted order, because `slice(0, limit)` interprets a negative end
index as counting from the end of the array. -/
theorem searchEmoji_negativeLimit (emojis : List IEmoji) (s : String)
    (k : Nat) (hk : 0 < k) :
    ∃ full : List IEmoji,
      searchEmoji emojis s (-(k : Int)) = full.take (full.length - k) ∧
      full.Perm (emojis.filter (fun e =>
        (strIndexOf e.short_name s).isSome && !(hasSkinTone e.short_name))) ∧
      full.Pairwise (fun a b =>
        (strIndexOf a.short_name s).getD 0 < (strIndexOf b.short_name s).getD 0 ∨
        ((strIndexOf a.short_name s).getD 0 = (strIndexOf b.short_name s).getD 0 ∧
          a.short_name.length ≤ b.short_name.length)) := by
  obtain ⟨full, hslice, hperm, hpair⟩ := searchEmoji_sortedFull emojis s
  refine ⟨full, ?_, hperm, hpair⟩
  rw [hslice]
  have hneg : ¬ (0 ≤ -(k : Int)) := by omega
  simp only [jsSlice, if_neg hneg, neg_neg, Int.toNat_natCast]

/-- Witness for C10 at the modelled dataset with query `s` and limit
`-1`. -/
theorem searchEmoji_negativeLimit_witness :
    0 < 1 ∧
    ∃ full : List IEmoji,
      searchEmoji modelEmojis "s" (-(1 : Nat) : Int) = full.take (full.length - 1) ∧
      full.Perm (modelEmojis.filter (fun e =>
        (strIndexOf e.short_name "s").isSome && !(hasSkinTone e.short_name))) ∧
      full.Pairwise (fun a b =>
        (strIndexOf a.short_name "s").getD 0 < (strIndexOf b.short_name "s").getD 0 ∨
        ((strIndexOf a.short_name "s").getD 0 = (strIndexOf b.short_name "s").getD 0 ∧
          a.short_name.length ≤ b.short_name.length)) :=
  ⟨by decide, searchEmoji_negativeLimit modelEmojis "s" 1 (by decide)⟩

theorem isPrefixOf_map (f : Char → Char) :
    ∀ (a l : List Char), a.isPrefixOf l = true →
      (a.map f).isPrefixOf (l.map f) = true := by
  intro a
  induction a with
  | nil => intro l _; simp [List.isPrefixOf]
  | cons x xs ih =>
    intro l h
    cases l with
    | nil => simp [List.isPrefixOf] at h
    | cons y ys =>
      simp only [List.isPrefixOf, Bool.and_eq_true, beq_iff_eq] at h
      simp only [List.map_cons, List.isPrefixOf, Bool.and_eq_true, beq_iff_eq]
      exact ⟨by rw [h.1], ih ys h.2⟩

theorem firstOccur_cons_neg (c : Char) (t sub : List Char)
    (hp : ¬ sub.isPrefixOf (c :: t) = true) :
    firstOccur (c :: t) sub = (firstOccur t sub).map Nat.succ := by
  rw [firstOccur, if_neg hp]

theorem firstOccur_lower (sub : List Char)
    (hsub : sub.map Char.toLower = sub) :
    ∀ l : List Char, (firstOccur l sub).isSome = true →
      (firstOccur (l.map Char.toLower) sub).isSome = true := by
  intro l
  induction l with
  | nil => intro h; simpa using h
  | cons c t ih =>
    intro h
    by_cases hp2 : sub.isPrefixOf ((c :: t).map Char.toLower) = true
    · unfold firstOccur
      rw [if_pos hp2]
      rfl
    · by_cases hp : sub.isPrefixOf (c :: t) = true
      · exact absurd (by rw [← hsub]; exact isPrefixOf_map Char.toLower sub (c :: t) hp) hp2
      · rw [firstOccur_cons_neg c t sub hp] at h
        simp only [Option.isSome_map'] at h
        rw [List.map_cons,
          firstOccur_cons_neg _ _ _ (by rw [← List.map_cons]; exact hp2)]
        simpa using ih h

/-- A query containing `::skin-tone-` still contains it after
lowercasing, which is what the branch test of `getImageData` consults. -/
theorem lower_contains_skinTone (q : String)
    (hq : (strIndexOf q "::skin-tone-").isSome = true) :
    (strIndexOf (lowerStr q) "::skin-tone-").isSome = true := by
  have hsub : ("::skin-tone-".data).map Char.toLower = "::skin-tone-".data := by decide
  exact firstOccur_lower "::skin-tone-".data hsub q.data hq

/-- C2: for every query containing `::skin-tone-` whose lowercased form
yields a digit suffix `n` under the `/skin-tone-(\d+)/` capture, and whose
modifier name `skin-tone-n` resolves to record `sv`, `getImageData`
removes the last 13 characters of the lowercased query to get the base
name and returns the variation descriptor `findImage base (some sv)` when
the base resolves, and `none` otherwise; in particular on the modelled
dataset `getImageData "spock-hand::skin-tone-4"` yields the variation
image `1f596-1f3fd.png`. -/
theorem getImageData_compound (d : List IEmoji) (q n : String) (sv : IEmoji)
    (hq : (strIndexOf q "::skin-tone-").isSome = true)
    (hn : skinToneDigits (lowerStr q) = some n)
    (hsv : emojiValMap d ("skin-tone-" ++ n) = some sv) :
    (∀ b : IEmoji,
      emojiValMap d
        (String.mk ((lowerStr q).data.take ((lowerStr q).length - 13))) = some b →
      getImageData d q = some (findImage b (some sv))) ∧
    (emojiValMap d
        (String.mk ((lowerStr q).data.take ((lowerStr q).length - 13))) = none →
      getImageData d q = none) ∧
    Option.map (fun img => img.image)
        (getImageData modelEmojis "spock-hand::skin-tone-4") =
      some "1f596-1f3fd.png" := by
  have hlow : ¬ (strIndexOf (lowerStr q) "::skin-tone-" = none) := by
    have h2 := lower_contains_skinTone q hq
    intro hc
    rw [hc] at h2
    simp at h2
  refine ⟨?_, ?_, by decide⟩
  · intro b hb
    simp [getImageData, hlow, hn, hsv, hb]
  · intro hb
    simp [getImageData, hlow, hn, hsv, hb]

/-- Witness for C2: the spock-hand example resolved on the modelled
dataset. -/
theorem getImageData_compound_witness :
    getImageData modelEmojis "spock-hand::skin-tone-4" =
      some (findImage spockHandRec (some skinTone4Rec)) :=
  (getImageData_compound modelEmojis "spock-hand::skin-tone-4" "4" skinTone4Rec
    (by decide) (by decide) (by decide)).1 spockHandRec (by decide)

/-- C3: with no modifier, or with a base record without skin variations,
`findImage` returns the sheet sizes `100 * 61 = 6100`, the coordinates
`sheet_x * 100 / (columnCount - 1)` and `sheet_y * 100 / (rowCount - 1)`,
and the base image. -/
theorem findImage_noModifier (b : IEmoji) (v : Option IEmoji)
    (h : v = none ∨ b.skin_variations = none) :
    findImage b v =
      { x := (b.sheet_x : Rat) * 100 / ((sheetColumns : Rat) - 1)
        y := (b.sheet_y : Rat) * 100 / ((sheetRows : Rat) - 1)
        sheetSizeX := 100 * (sheetColumns : Rat)
        sheetSizeY := 100 * (sheetRows : Rat)
        image := b.image } ∧
    sheetColumns = 61 ∧ sheetRows = 61 ∧ 100 * (sheetColumns : Rat) = 6100 := by
  refine ⟨?_, rfl, rfl, by norm_num [sheetColumns]⟩
  rcases h with rfl | hnone
  · cases hsv : b.skin_variations with
    | none => simp [findImage, hsv, mul_div_assoc]
    | some svs => simp [findImage, hsv, mul_div_assoc]
  · cases v with
    | none => simp [findImage, hnone, mul_div_assoc]
    | some vv => simp [findImage, hnone, mul_div_assoc]

/-- Witness for C3 at the modelled `smile` record. -/
theorem findImage_noModifier_witness :
    findImage smileRec none =
      { x := (smileRec.sheet_x : Rat) * 100 / ((sheetColumns : Rat) - 1)
        y := (smileRec.sheet_y : Rat) * 100 / ((sheetRows : Rat) - 1)
        sheetSizeX := 100 * (sheetColumns : Rat)
        sheetSizeY := 100 * (sheetRows : Rat)
        image := smileRec.image } ∧
    sheetColumns = 61 ∧ sheetRows = 61 ∧ 100 * (sheetColumns : Rat) = 6100 :=
  findImage_noModifier smileRec none (Or.inl rfl)

/-- C4: with a modifier and a base record carrying skin variations,
`findImage` looks the variation up under the unified code of the
modifier, falls back to the doubled composite key, and on a double miss
returns the zero-coordinate, empty-image descriptor with the full sheet
sizes; being a total function it never throws. -/
theorem findImage_variation (b v : IEmoji)
    (svs : List (String × SkinVariationData))
    (h : b.skin_variations = some svs) :
    (∀ f, lookupSV svs v.unified = some f →
      findImage b (some v) =
        { x := (f.sheet_x : Rat) * 100 / ((sheetColumns : Rat) - 1)
          y := (f.sheet_y : Rat) * 100 / ((sheetRows : Rat) - 1)
          sheetSizeX := 100 * (sheetColumns : Rat)
          sheetSizeY := 100 * (sheetRows : Rat)
          image := f.image }) ∧
    (∀ f, lookupSV svs v.unified = none →
      lookupSV svs (v.unified ++ "-" ++ v.unified) = some f →
      findImage b (some v) =
        { x := (f.sheet_x : Rat) * 100 / ((sheetColumns : Rat) - 1)
          y := (f.sheet_y : Rat) * 100 / ((sheetRows : Rat) - 1)
          sheetSizeX := 100 * (sheetColumns : Rat)
          sheetSizeY := 100 * (sheetRows : Rat)
          image := f.image }) ∧
    (lookupSV svs v.unified = none →
      lookupSV svs (v.unified ++ "-" ++ v.unified) = none →
      findImage b (some v) =
        { x := 0
          y := 0
          sheetSizeX := 100 * (sheetColumns : Rat)
          sheetSizeY := 100 * (sheetRows : Rat)
          image := "" }) := by
  refine ⟨?_, ?_, ?_⟩
  · intro f hf
    simp [findImage, h, hf, mul_div_assoc]
  · intro f hf1 hf2
    simp [findImage, h, hf1, hf2, mul_div_assoc]
  · intro hf1 hf2
    simp [findImage, h, hf1, hf2]

/-- Witness for C4 at the modelled `spock-hand` record with
`skin-tone-4`. -/
theorem findImage_variation_witness :
    findImage spockHandRec (some skinTone4Rec) =
      { x := (((41 : Nat) : Rat)) * 100 / ((sheetColumns : Rat) - 1)
        y := (((23 : Nat) : Rat)) * 100 / ((sheetRows : Rat) - 1)
        sheetSizeX := 100 * (sheetColumns : Rat)
        sheetSizeY := 100 * (sheetRows : Rat)
        image := "1f596-1f3fd.png" } :=
  (findImage_variation spockHandRec skinTone4Rec
      [("1F3FB",
        { unified := "1F596-1F3FB"
          image := "1f596-1f3fb.png"
          sheet_x := 41
          sheet_y := 21 }),
       ("1F3FD",
        { unified := "1F596-1F3FD"
          image := "1f596-1f3fd.png"
          sheet_x := 41
          sheet_y := 23 })] rfl).1
    { unified := "1F596-1F3FD"
      image := "1f596-1f3fd.png"
      sheet_x := 41
      sheet_y := 23 } (by decide)

/-- C9: `getSkinInfo` returns the computed variation coordinates and
image together with the base unified code and the given skin-tone name
when the optional argument is a recognised skin-tone string, and the base
record data unchanged otherwise. -/
theorem getSkinInfo_spec (d : List IEmoji) (emoji : IEmoji) (st : String) :
    (hasSkinTone st = true →
      getSkinInfo d emoji (some st) =
        { sheet_x := (findImage emoji (emojiValMap d st)).x
          sheet_y := (findImage emoji (emojiValMap d st)).y
          unified := emoji.unified
          short_name := st
          image := (findImage emoji (emojiValMap d st)).image }) ∧
    (hasSkinTone st = false →
      getSkinInfo d emoji (some st) =
        { sheet_x := (emoji.sheet_x : Rat)
          sheet_y := (emoji.sheet_y : Rat)
          unified := emoji.unified
          short_name := emoji.short_name
          image := emoji.image }) ∧
    getSkinInfo d emoji none =
      { sheet_x := (emoji.sheet_x : Rat)
        sheet_y := (emoji.sheet_y : Rat)
        unified := emoji.unified
        short_name := emoji.short_name
        image := emoji.image } := by
  refine ⟨?_, ?_, rfl⟩
  · intro hst
    simp [getSkinInfo, hst]
  · intro hst
    simp [getSkinInfo, hst]

/-- Witness for C9 at the modelled `spock-hand` record with the
`skin-tone-4` name. -/
theorem getSkinInfo_spec_witness :
    getSkinInfo modelEmojis spockHandRec (some "skin-tone-4") =
      { sheet_x := (findImage spockHandRec (emojiValMap modelEmojis "skin-tone-4")).x
        sheet_y := (findImage spockHandRec (emojiValMap modelEmojis "skin-tone-4")).y
        unified := spockHandRec.unified
        short_name := "skin-tone-4"
        image := (findImage spockHandRec (emojiValMap modelEmojis "skin-tone-4")).image } :=
  (getSkinInfo_spec modelEmojis spockHandRec "skin-tone-4").1 (by decide)

theorem dropWhile_head_ne (p : Char → Bool) (l : List Char)
    (h : ∀ c, l.head? = some c → p c = false) : l.dropWhile p = l := by
  cases l with
  | nil => rfl
  | cons c t =>
    rw [List.dropWhile_cons, h c rfl]
    simp

theorem dropWhile_colon_cons (xs : List Char) :
    (':' :: xs).dropWhile (fun c => c = ':') =
      xs.dropWhile (fun c => c = ':') := by
  rw [List.dropWhile_cons]
  simp

/-- C8: `getImageDataWithColon` is `getImageData` after removing every
leading and every trailing colon; for a plain name (no leading or
trailing colon) the colon-wrapped token resolves exactly like the bare
name. -/
theorem getImageDataWithColon_strip (d : List IEmoji) (n : String)
    (h1 : n.data.head? ≠ some ':')
    (h2 : n.data.getLast? ≠ some ':') :
    (∀ tok : String, getImageDataWithColon d tok = getImageData d (trimColons tok)) ∧
    getImageDataWithColon d (":" ++ n ++ ":") = getImageData d n := by
  obtain ⟨l⟩ := n
  refine ⟨fun tok => rfl, ?_⟩
  have key : trimColons (":" ++ String.mk l ++ ":") = String.mk l := by
    show String.mk
      ((((':' :: (l ++ [':'])).dropWhile (fun c => c = ':')).reverse.dropWhile
        (fun c => c = ':')).reverse) = String.mk l
    cases l with
    | nil => decide
    | cons c t =>
      have hc : (fun x => decide (x = ':')) c = false := by
        simp only [decide_eq_false_iff_not]
        intro hcc
        rw [show (String.mk (c :: t)).data = c :: t from rfl] at h1
        simp [hcc] at h1
      have hlast : ∀ x, (c :: t).reverse.head? = some x →
          (fun y => decide (y = ':')) x = false := by
        intro x hx
        rw [List.head?_reverse] at hx
        simp only [decide_eq_false_iff_not]
        intro hxx
        rw [show (String.mk (c :: t)).data = c :: t from rfl] at h2
        rw [hx] at h2
        simp [hxx] at h2
      have e1 : (':' :: ((c :: t) ++ [':'])).dropWhile (fun x => x = ':') =
          c :: (t ++ [':']) := by
        rw [dropWhile_colon_cons, List.cons_append]
        exact dropWhile_head_ne _ _ (fun x hx => by
          rw [List.head?_cons, Option.some.injEq] at hx
          subst hx
          simpa using hc)
      have e2 : (c :: (t ++ [':'])).reverse = ':' :: (c :: t).reverse := by
        rw [show c :: (t ++ [':']) = (c :: t) ++ [':'] from rfl,
          List.reverse_append]
        rfl
      have e3 : (':' :: (c :: t).reverse).dropWhile (fun x => x = ':') =
          (c :: t).reverse := by
        rw [dropWhile_colon_cons]
        exact dropWhile_head_ne _ _ hlast
      rw [e1, e2, e3, List.reverse_reverse]
  show getImageData d (trimColons (":" ++ String.mk l ++ ":")) = getImageData d (String.mk l)
  rw [key]

/-- Witness for C8 at the name `smile` on the modelled dataset. -/
theorem getImageDataWithColon_strip_witness :
    (∀ tok : String,
      getImageDataWithColon modelEmojis tok =
        getImageData modelEmojis (trimColons tok)) ∧
    getImageDataWithColon modelEmojis (":" ++ "smile" ++ ":") =
      getImageData modelEmojis "smile" :=
  getImageDataWithColon_strip modelEmojis "smile" (by decide) (by decide)

/-- C5 counterexample: on the modelled dataset the query
`smile::skin-tone-x` contains `::skin-tone-`, its suffix has no digits
(the capture fails), and its base name `smile` resolves; yet the result is
the base descriptor of `smile` with non-zero coordinates `(160/3, 250/3)`
and image `1f604.png`, not a zero-coordinate descriptor as the claim
states. -/
theorem getImageData_malformedTone_counterexample :
    (strIndexOf "smile::skin-tone-x" "::skin-tone-").isSome = true ∧
    skinToneDigits (lowerStr "smile::skin-tone-x") = none ∧
    emojiValMap modelEmojis "smile" = some smileRec ∧
    getImageData modelEmojis "smile::skin-tone-x" =
      some (findImage smileRec none) ∧
    (findImage smileRec none).x ≠ 0 ∧ (findImage smileRec none).y ≠ 0 ∧
    (findImage smileRec none).image = "1f604.png" := by
  refine ⟨by decide, by decide, by decide, ?_, ?_, ?_, ?_⟩
  · have hlow :
        ¬ (strIndexOf (lowerStr "smile::skin-tone-x") "::skin-tone-" = none) := by
      decide
    have hn : skinToneDigits (lowerStr "smile::skin-tone-x") = none := by decide
    have hnull : emojiValMap modelEmojis "skin-tone-null" = none := by decide
    have hb : emojiValMap modelEmojis
        (String.mk ((lowerStr "smile::skin-tone-x").data.take
          ((lowerStr "smile::skin-tone-x").length - 13))) = some smileRec := by
      decide
    have happ : ("skin-tone-" ++ "null" : String) = "skin-tone-null" := rfl
    simp [getImageData, hlow, hn, happ, hnull, hb]
  · simp only [findImage, smileRec, sheetColumns]
    norm_num
  · simp only [findImage, smileRec, sheetRows]
    norm_num
  · simp only [findImage, smileRec]

/-- C5 (amended): for a query containing `::skin-tone-` whose suffix
fails the digit capture, the modifier lookup uses the literal key
`skin-tone-null`; when that key does not resolve and the base name
(the lowercased query minus its last 13 characters) resolves to record
`b`, `getImageData` returns the own descriptor of the base record — base
coordinates and base image — and never signals an error. -/
theorem getImageData_malformedTone (d : List IEmoji) (q : String)
    (hq : (strIndexOf q "::skin-tone-").isSome = true)
    (hn : skinToneDigits (lowerStr q) = none)
    (hnull : emojiValMap d "skin-tone-null" = none)
    (b : IEmoji)
    (hb : emojiValMap d
      (String.mk ((lowerStr q).data.take ((lowerStr q).length - 13))) = some b) :
    getImageData d q = some (findImage b none) ∧
    findImage b none =
      { x := (b.sheet_x : Rat) * 100 / ((sheetColumns : Rat) - 1)
        y := (b.sheet_y : Rat) * 100 / ((sheetRows : Rat) - 1)
        sheetSizeX := 100 * (sheetColumns : Rat)
        sheetSizeY := 100 * (sheetRows : Rat)
        image := b.image } := by
  have hlow : ¬ (strIndexOf (lowerStr q) "::skin-tone-" = none) := by
    have h2 := lower_contains_skinTone q hq
    intro hc
    rw [hc] at h2
    simp at h2
  have happ : ("skin-tone-" ++ "null" : String) = "skin-tone-null" := rfl
  refine ⟨?_, (findImage_noModifier b none (Or.inl rfl)).1⟩
  simp [getImageData, hlow, hn, happ, hnull, hb]

/-- Witness for C5 (amended) at the query `smile::skin-tone-x` on the
modelled dataset. -/
theorem getImageData_malformedTone_witness :
    getImageData modelEmojis "smile::skin-tone-x" =
      some (findImage smileRec none) ∧
    findImage smileRec none =
      { x := (smileRec.sheet_x : Rat) * 100 / ((sheetColumns : Rat) - 1)
        y := (smileRec.sheet_y : Rat) * 100 / ((sheetRows : Rat) - 1)
        sheetSizeX := 100 * (sheetColumns : Rat)
        sheetSizeY := 100 * (sheetRows : Rat)
        image := smileRec.image } :=
  getImageData_malformedTone modelEmojis "smile::skin-tone-x"
    (by decide) (by decide) (by decide) smileRec (by decide)

/-- C6 counterexample: the raw query `SMILE::SKIN-TONE-4` does not
contain the literal `::skin-tone-`, and its lowercased form does not
resolve in the name index, so the claim predicts a `not found` result;
but `getImageData` lowercases before testing the branch, takes the
compound branch and returns a descriptor. -/
theorem getImageData_plain_counterexample :
    strIndexOf "SMILE::SKIN-TONE-4" "::skin-tone-" = none ∧
    emojiValMap modelEmojis (lowerStr "SMILE::SKIN-TONE-4") = none ∧
    getImageData modelEmojis "SMILE::SKIN-TONE-4" ≠ none := by
  refine ⟨by decide, by decide, by decide⟩

/-- C6 (amended): for every query whose lowercased form does not contain
`::skin-tone-`, `getImageData` returns a descriptor exactly when the
lowercased query resolves in the name index to a record whose category is
not `Skin Tones`, and `not found` otherwise; in particular the smiley
`:)` is not found. -/
theorem getImageData_plain (d : List IEmoji) (q : String)
    (hq : strIndexOf (lowerStr q) "::skin-tone-" = none) :
    ((∃ img, getImageData d q = some img) ↔
      (∃ e, emojiValMap d (lowerStr q) = some e ∧ e.category ≠ "Skin Tones")) ∧
    getImageData modelEmojis ":)" = none := by
  refine ⟨?_, by decide⟩
  constructor
  · rintro ⟨img, himg⟩
    cases he : emojiValMap d (lowerStr q) with
    | none => simp [getImageData, hq, he] at himg
    | some e =>
      by_cases hcat : e.category = "Skin Tones"
      · simp [getImageData, hq, he, hcat] at himg
      · exact ⟨e, rfl, hcat⟩
  · rintro ⟨e, he, hcat⟩
    exact ⟨findImage e none, by simp [getImageData, hq, he, hcat]⟩

/-- Witness for C6 (amended) at the query `smile` on the modelled
dataset. -/
theorem getImageData_plain_witness :
    ((∃ img, getImageData modelEmojis "smile" = some img) ↔
      (∃ e, emojiValMap modelEmojis (lowerStr "smile") = some e ∧
        e.category ≠ "Skin Tones")) ∧
    getImageData modelEmojis ":)" = none :=
  getImageData_plain modelEmojis "smile" (by decide)

/-- No Unicode scalar value lies in the surrogate range U+DFFB..U+DFFF,
so the optional capture group of the generated matcher never matches a
code point of a well-formed string; in particular it never captures an
actual skin-tone modifier (U+1F3FB..U+1F3FF). -/
theorem isToneCapture_false (c : Char) : isToneCapture c = false := by
  have h : c.val.toNat < 0xd800 ∨ (0xdfff < c.val.toNat ∧ c.val.toNat < 0x110000) :=
    c.valid
  have ht : c.toNat = c.val.toNat := rfl
  simp only [isToneCapture, Bool.and_eq_false_iff, decide_eq_false_iff_not, ht]
  omega

theorem findAlt_some_ne_nil (alts : List String) (l : List Char) (a : String)
    (h : findAlt alts l = some a) : a.data ≠ [] := by
  have hp := List.find?_some h
  simp only [Bool.and_eq_true, Bool.not_eq_true', List.isEmpty_eq_false] at hp
  exact hp.1

theorem replaceScan_nil (d : List IEmoji) (alts : List String) (fuel : Nat) :
    replaceScan d alts fuel [] = [] := by
  cases fuel <;> rfl

theorem replaceScan_fuel (d : List IEmoji) (alts : List String) :
    ∀ f1 f2 (l : List Char), l.length ≤ f1 → l.length ≤ f2 →
      replaceScan d alts f1 l = replaceScan d alts f2 l := by
  intro f1
  induction f1 with
  | zero =>
    intro f2 l h1 h2
    cases l with
    | nil => rw [replaceScan_nil, replaceScan_nil]
    | cons c rest => simp at h1
  | succ f ih =>
    intro f2 l h1 h2
    cases l with
    | nil => rw [replaceScan_nil, replaceScan_nil]
    | cons c rest =>
      cases f2 with
      | zero => simp at h2
      | succ f2m =>
        have hr1 : rest.length ≤ f := by simpa using h1
        have hr2 : rest.length ≤ f2m := by simpa using h2
        cases hfa : findAlt alts (c :: rest) with
        | none =>
          simp only [replaceScan, hfa]
          rw [ih f2m rest hr1 hr2]
        | some a =>
          have ha : a.data ≠ [] := findAlt_some_ne_nil alts (c :: rest) a hfa
          have halen : 1 ≤ a.data.length := by
            cases hA : a.data with
            | nil => exact absurd hA ha
            | cons x xs => simp
          simp only [replaceScan, hfa]
          cases hdrop : (c :: rest).drop a.data.length with
          | nil => rfl
          | cons m r =>
            have hlen : r.length + 1 ≤ rest.length := by
              have hd := List.length_drop a.data.length (c :: rest)
              rw [hdrop] at hd
              simp only [List.length_cons] at hd ⊢
              omega
            by_cases hm : isToneCapture m = true
            · simp only [hm, if_true]
              rw [ih f2m r (by omega) (by omega)]
            · simp only [hm, if_false, Bool.false_eq_true]
              rw [ih f2m (m :: r) (by simp; omega) (by simp; omega)]

theorem replaceScan_noMatch (d : List IEmoji) (alts : List String) :
    ∀ t : List Char, (∀ i : Nat, findAlt alts (t.drop i) = none) →
      replaceScan d alts t.length t = t := by
  intro t
  induction t with
  | nil => intro h; rfl
  | cons c rest ih =>
    intro h
    have h0 : findAlt alts (c :: rest) = none := by
      have := h 0
      simpa using this
    simp only [List.length_cons, replaceScan, h0]
    rw [ih (fun i => by have := h (i + 1); simpa using this)]

theorem mk_append (l1 l2 : List Char) :
    String.mk l1 ++ String.mk l2 = String.mk (l1 ++ l2) := rfl

/-- C7: the substitution of `replaceEmojiToStr`.  The callback emits only
the base short name of the record found for the captured base group even
when a trailing tone code point was captured as part of the match (the
modifier is consumed with the match and not separately rendered), and
returns the matched text unchanged when the character index has no
record; text with no match at any position passes through verbatim; a
non-matching character at the head of the text passes through unchanged
while the scan continues on the remainder; and a match at the head of
the text is replaced by the callback result, the scan continuing after
it.  The last two conjuncts determine the scan on every mixed input, so
all non-matching text between matches passes through verbatim. -/
theorem replaceEmojiToStr_spec (d : List IEmoji) :
    (∀ m p1 e, emojiUnifiedValMap d p1 = some e →
      convertUniToStr d m p1 = ":" ++ e.short_name ++ ":") ∧
    (∀ m p1, emojiUnifiedValMap d p1 = none → convertUniToStr d m p1 = m) ∧
    (∀ t : List Char, (∀ i : Nat, findAlt (initUnified d) (t.drop i) = none) →
      replaceEmojiToStr d (String.mk t) = String.mk t) ∧
    (∀ (c : Char) (t : List Char),
      findAlt (initUnified d) (c :: t) = none →
      replaceEmojiToStr d (String.mk (c :: t)) =
        String.mk [c] ++ replaceEmojiToStr d (String.mk t)) ∧
    (∀ (a : String) (rest : List Char),
      findAlt (initUnified d) (a.data ++ rest) = some a →
      replaceEmojiToStr d (String.mk (a.data ++ rest)) =
        convertUniToStr d a a ++ replaceEmojiToStr d (String.mk rest)) := by
  refine ⟨?_, ?_, ?_, ?_, ?_⟩
  · intro m p1 e he
    simp [convertUniToStr, he]
  · intro m p1 he
    simp [convertUniToStr, he]
  · intro t ht
    exact congrArg String.mk (replaceScan_noMatch d (initUnified d) t ht)
  · intro c t hfa
    have hl : replaceScan d (initUnified d) (t.length + 1) (c :: t) =
        c :: replaceScan d (initUnified d) t.length t := by
      simp only [replaceScan, hfa]
    show String.mk (replaceScan d (initUnified d) (c :: t).length (c :: t)) =
      String.mk [c] ++ String.mk (replaceScan d (initUnified d) t.length t)
    rw [mk_append, List.length_cons, hl]
    rfl
  · intro a rest hfa
    have ha : a.data ≠ [] := findAlt_some_ne_nil (initUnified d) (a.data ++ rest) a hfa
    cases hA : a.data with
    | nil => exact absurd hA ha
    | cons c t0 =>
      rw [hA] at hfa
      have hstep :
          replaceScan d (initUnified d) (c :: (t0 ++ rest)).length
              (c :: (t0 ++ rest)) =
            (convertUniToStr d a a).data ++
              replaceScan d (initUnified d) rest.length rest := by
        have hfa2 : findAlt (initUnified d) (c :: (t0 ++ rest)) = some a := by
          rw [← List.cons_append]
          exact hfa
        have hdrop : (c :: (t0 ++ rest)).drop a.data.length = rest := by
          rw [show c :: (t0 ++ rest) = a.data ++ rest by rw [hA, List.cons_append],
            List.drop_left]
        simp only [List.length_cons, replaceScan, hfa2, hdrop]
        cases rest with
        | nil => simp [replaceScan_nil]
        | cons m r =>
          have hm : isToneCapture m = false := isToneCapture_false m
          simp only [hm, Bool.false_eq_true, if_false]
          rw [replaceScan_fuel d (initUnified d) (t0 ++ m :: r).length
            (m :: r).length (m :: r) (by simp) (by simp)]
      show String.mk (replaceScan d (initUnified d)
          (c :: (t0 ++ rest)).length (c :: (t0 ++ rest))) =
        convertUniToStr d a a ++
          String.mk (replaceScan d (initUnified d) rest.length rest)
      rw [hstep, ← mk_append]

/-- Witness for C7: the letter x followed by a waving hand and the
type-1-2 modifier on the modelled dataset; the non-matching letter
passes through, the base match is substituted, and the modifier
character (itself a dataset record) is matched and substituted
separately. -/
theorem replaceEmojiToStr_spec_witness :
    replaceEmojiToStr modelEmojis
      (String.mk [Char.ofNat 0x78, Char.ofNat 0x1F44B, Char.ofNat 0x1F3FB]) =
      "x:wave::skin-tone-2:" := by
  have hskip := (replaceEmojiToStr_spec modelEmojis).2.2.2.1
    (Char.ofNat 0x78) [Char.ofNat 0x1F44B, Char.ofNat 0x1F3FB] (by decide)
  have hmatch := (replaceEmojiToStr_spec modelEmojis).2.2.2.2
    (String.mk [Char.ofNat 0x1F44B]) [Char.ofNat 0x1F3FB] (by decide)
  rw [show (String.mk [Char.ofNat 0x1F44B]).data ++ [Char.ofNat 0x1F3FB] =
    [Char.ofNat 0x1F44B, Char.ofNat 0x1F3FB] from rfl] at hmatch
  rw [hskip, hmatch]
  decide
